import Mathlib

/-!
Verification of the `ecoproph` data-cleaning pipeline
(`src/datasetutils.py`) against its natural-language specification.

The Python module is shallowly embedded here:
* a pandas cell value becomes `Val` (a float is modelled as an exact `ℚ`,
  a string stays a string, `NaN`/missing is `Val.nan`);
* a dataframe row becomes an association list `Row` from column name to `Val`;
* a parsed `.csv` file becomes `CsvFile` (name, header, raw rows);
* each Python function is translated into a Lean function of the same shape,
  with Python exceptions modelled by `Except`.
-/

set_option autoImplicit false

/-- A pandas cell value: a float (modelled exactly as a rational), a string,
or the missing-value marker `NaN`. -/
inductive Val where
  | num : ℚ → Val
  | str : String → Val
  | nan : Val
  deriving DecidableEq, Repr

/-- A dataframe row: an association list from column name to cell value. -/
abbrev Row := List (String × Val)

/-- The column names of a row, in order. -/
def rowKeys (r : Row) : List String := r.map Prod.fst

/-- Is this cell the missing-value marker? -/
def isNan : Val → Bool
  | .nan => true
  | _ => false

/-- Cell of row `r` at column `c`; a missing column reads as `NaN`
(mirrors how a masked/unknown cell surfaces in the source's row operations). -/
def cellD (r : Row) (c : String) : Val := (r.lookup c).getD Val.nan

/-- The pandas dtypes used by the source's `keyword_type_map`:
`np.float64`, `str` and `object`. -/
inductive PType where
  | float | strT | objT
  deriving DecidableEq, Repr

/-- Errors the Python code can raise while loading.  `keyError` models a
`KeyError` (missing column in a frame, or a column absent from
`keyword_type_map`); `typeError` models the `ValueError` of a failed
`astype` conversion. -/
inductive LoadErr where
  | keyError | typeError
  deriving DecidableEq, Repr

/-- `keyword_type_map` from the source: the column catalog mapping every
recognized column name to its dtype. -/
def keywordTypeMap : List (String × PType) :=
  [("unixtimestamp", .float), ("hhmmss", .objT), ("R_BauBGb-P_SUM", .float),
   ("E_GLOBAL", .float), ("T_AMB", .float), ("P_AIR", .float),
   ("YYYYMMDD", .strT), ("AEZ-P_SUM", .float), ("R_BauTGb-P_SUM", .float),
   ("PV_SolarLog_30kW-P_SUM", .float), ("PV_120kW-P_SUM", .float),
   ("R_BauBGa-P_SUM", .float), ("R_Bau_TGa-P_SUM", .float),
   ("E_BauXa-P_SUM", .float), ("E_BauXb-P_SUM", .float)]

/-- `value_limits` from the source: declared `[min, max]` ranges. -/
def valueLimits : List (String × (ℚ × ℚ)) :=
  [("AEZ-P_SUM", (5, 75)), ("R_BauBGa-P_SUM", (5, 60)),
   ("R_BauBGb-P_SUM", (5, 40)), ("R_Bau_TGa-P_SUM", (25, 250)),
   ("R_BauTGb-P_SUM", (35, 275)), ("PV_120kW-P_SUM", (0, 120))]

/-- Does the character list `p` occur at the head of the second list? -/
def leadsWith : List Char → List Char → Bool
  | [], _ => true
  | _ :: _, [] => false
  | p :: ps, c :: cs => p == c && leadsWith ps cs

/-- Does the character list `p` occur as a contiguous run anywhere in `s`?
Models Python's substring test `p in s`. -/
def hasSub (p : List Char) : List Char → Bool
  | [] => leadsWith p []
  | c :: cs => leadsWith p (c :: cs) || hasSub p cs

/-- Python's `"{0}".format(val)` textual representation of a cell, as far as
the pipeline observes it: strings print themselves, floats print their
numerals, `NaN` prints as `nan`. -/
def pyFormat : Val → String
  | .str s => s
  | .num q => toString q
  | .nan => "nan"

/-- Does the textual representation of the cell contain the substring
`err` (case-sensitive)? -/
def containsErrTxt (v : Val) : Bool := hasSub ['e', 'r', 'r'] (pyFormat v).data

/-- `contains_error` from the source: a cell whose text contains `err`
becomes `NaN`, any other cell is returned unchanged. -/
def containsError (v : Val) : Val := if containsErrTxt v then Val.nan else v

/-- Numeric value of a digit string, most significant digit first. -/
def natOfDigits (l : List Char) : Nat := l.foldl (fun a c => 10 * a + (c.toNat - 48)) 0

/-- Parse a decimal literal (optional sign, digits, optional fractional part)
into an exact rational.  Models the plain-literal core of Python's
`float(str)`, which the source relies on via `astype(np.float64)`. -/
def parseDecimal (s : String) : Option ℚ :=
  let l0 := s.data
  let sg : ℚ := if l0.head? = some '-' then -1 else 1
  let l : List Char := if l0.head? = some '-' ∨ l0.head? = some '+' then l0.drop 1 else l0
  let ip := l.takeWhile (fun c => !(c == '.'))
  match l.dropWhile (fun c => !(c == '.')) with
  | [] =>
    if ip ≠ [] ∧ ip.all Char.isDigit then some (sg * (natOfDigits ip : ℚ)) else none
  | _ :: fp =>
    if (ip ≠ [] ∨ fp ≠ []) ∧ ip.all Char.isDigit ∧ fp.all Char.isDigit then
      some (sg * ((natOfDigits ip : ℚ) + (natOfDigits fp : ℚ) / (10 : ℚ) ^ fp.length))
    else none

/-- `astype` on a single cell.  `float64` keeps numbers and `NaN`, parses
strings (a failed parse is the `ValueError` of the source); `str` renders
any cell as its string form; `object` is the identity. -/
def convertVal : PType → Val → Except LoadErr Val
  | .float, .num q => .ok (.num q)
  | .float, .nan => .ok .nan
  | .float, .str s =>
    match parseDecimal s with
    | some q => .ok (.num q)
    | none => .error .typeError
  | .strT, .num q => .ok (.str (toString q))
  | .strT, .str s => .ok (.str s)
  | .strT, .nan => .ok (.str "nan")
  | .objT, v => .ok v

/-- Effectful `List.map` over `Except`, written as plain recursion so the
pipeline's per-row/per-cell loops stay easy to reason about. -/
def mapE {α β ε : Type} (f : α → Except ε β) : List α → Except ε (List β)
  | [] => .ok []
  | a :: as =>
    match f a with
    | .error e => .error e
    | .ok b =>
      match mapE f as with
      | .error e => .error e
      | .ok bs => .ok (b :: bs)

/-- One column step of `apply_type_conversion`: re-type every cell of the
row that sits in column `c`. -/
def convRowAt (t : PType) (c : String) (r : Row) : Except LoadErr Row :=
  mapE (fun kv => if kv.1 == c then (convertVal t kv.2).map (fun w => (kv.1, w)) else .ok kv) r

/-- `apply_type_conversion` from the source: for each selected column in
order, cast the whole column to its catalog dtype; a column absent from
`keyword_type_map` raises `KeyError`. -/
def applyTypeConversion : List String → List Row → Except LoadErr (List Row)
  | [], rows => .ok rows
  | c :: cs, rows =>
    match keywordTypeMap.lookup c with
    | none => .error .keyError
    | some t =>
      match mapE (convRowAt t c) rows with
      | .error e => .error e
      | .ok rows' => applyTypeConversion cs rows'

/-- One row of `df.applymap(lambda x: contains_error(x))`. -/
def tagRow (r : Row) : Row := r.map (fun kv => (kv.1, containsError kv.2))

/-- `df.applymap(lambda x: contains_error(x))`: error-mark every cell. -/
def errTag (rows : List Row) : List Row := rows.map tagRow

/-- Does the row contain no missing value? -/
def rowClean (r : Row) : Bool := r.all (fun kv => !isNan kv.2)

/-- `df.dropna()`: drop every row that contains a missing value. -/
def dropna (rows : List Row) : List Row := rows.filter rowClean

/-- `df[col] < lo` on one cell: only a number can compare below the bound;
`NaN` (and anything non-numeric) compares false, as in pandas. -/
def valBelow (v : Val) (q : ℚ) : Bool :=
  match v with
  | .num x => decide (x < q)
  | _ => false

/-- `df[col] > hi` on one cell. -/
def valAbove (v : Val) (q : ℚ) : Bool :=
  match v with
  | .num x => decide (q < x)
  | _ => false

/-- `df[mask] = np.nan` applied to one selected row: every cell of the row
becomes missing. -/
def nanRow (r : Row) : Row := r.map (fun kv => (kv.1, Val.nan))

/-- The two masked assignments of `apply_limits` for one ranged column:
first every row below `lo`, then every row above `hi`, is replaced whole
by `NaN`. -/
def limitCol (c : String) (lo hi : ℚ) (rows : List Row) : List Row :=
  let r1 := rows.map (fun r => if valBelow (cellD r c) lo then nanRow r else r)
  r1.map (fun r => if valAbove (cellD r c) hi then nanRow r else r)

/-- `apply_limits` from the source: for each selected column that has a
declared range, blank out (row-wide) every out-of-range row. -/
def applyLimits : List String → List Row → List Row
  | [], rows => rows
  | c :: cs, rows =>
    match valueLimits.lookup c with
    | none => applyLimits cs rows
    | some (lo, hi) => applyLimits cs (limitCol c lo hi rows)

/-- A parsed `.csv` record source: file name, header, and rows keyed by
column name (the values as `pd.read_csv` materialized them, with `hhmmss`
kept as text by the explicit `dtype` argument). -/
structure CsvFile where
  name : String
  header : List String
  rows : List Row
  deriving DecidableEq, Repr

/-- `pd.read_csv(file, ...)[col_of_interest]`: restrict every row to the
selected columns, in the requested order; a selected column missing from
the file's header raises `KeyError`. -/
def selectFrame (cols : List String) (f : CsvFile) : Except LoadErr (List Row) :=
  if cols.all (fun c => f.header.contains c) then
    .ok (f.rows.map (fun r => cols.map (fun c => (c, cellD r c))))
  else .error .keyError

/-- The five-step sanitization sequence of the source loaders, in source
order: error tagging, first `dropna`, type conversion, limit enforcement,
second `dropna`. -/
def sanitize (cols : List String) (rows : List Row) : Except LoadErr (List Row) :=
  match applyTypeConversion cols (dropna (errTag rows)) with
  | .error e => .error e
  | .ok r3 => .ok (dropna (applyLimits cols r3))

/-- Load and sanitize one record source (the per-file body of
`load_dataset_from_directory_` `partial` in the source). -/
def loadFile (cols : List String) (f : CsvFile) : Except LoadErr (List Row) :=
  match selectFrame cols f with
  | .error e => .error e
  | .ok sel => sanitize cols sel

/-- `filename.endswith(suf)`. -/
def strEndsWith (s suf : String) : Bool := suf.data.isSuffixOf s.data

/-- The directory loop shared by both directory loaders: iterate the listed
files, process each `.csv` file with `perFile`, and concatenate the results
in listing order.  On failure the error is paired with the number of files
that had already been opened and read when it surfaced (the source's
`file_cnt`), so "how many files were read before the error" is observable. -/
def loadDirAux (perFile : CsvFile → Except LoadErr (List Row)) :
    List CsvFile → Nat → Except (Nat × LoadErr) (List Row)
  | [], _ => .ok []
  | f :: fs, n =>
    if strEndsWith f.name ".csv" then
      match perFile f with
      | .error e => .error (n + 1, e)
      | .ok rows =>
        match loadDirAux perFile fs (n + 1) with
        | .error x => .error x
        | .ok rest => .ok (rows ++ rest)
    else loadDirAux perFile fs n

/-- `load_dataset_from_directory_` `partial`: the spec's `loadDirectory` —
sanitize every `.csv` file of the directory and concatenate the cleaned
batches, no aggregation. -/
def loadDirectory (files : List CsvFile) (cols : List String) :
    Except (Nat × LoadErr) (List Row) :=
  loadDirAux (loadFile cols) files 0

/-- Characters `[a:b)` of a string, Python slice style. -/
def sliceChars (s : String) (a b : Nat) : List Char := (s.data.drop a).take (b - a)

/-- `series.str[a:b]` on one cell: slice a string, anything non-string
becomes `NaN` (pandas' `.str` accessor semantics). -/
def strSliceVal (v : Val) (a b : Nat) : Val :=
  match v with
  | .str s => .str (String.mk (sliceChars s a b))
  | _ => .nan

/-- `df[c]` on one row: a missing column raises `KeyError`. -/
def colValE (r : Row) (c : String) : Except LoadErr Val :=
  match r.lookup c with
  | some v => .ok v
  | none => .error .keyError

/-- The per-row content of `add_time_columns`: append the derived `Month`,
`Day` and `Hour` cells (date-string characters `[4:6)` and `[6:8)`, and
time-string characters `[0:2)`, each cast to `float64`). -/
def timeRowAug (r : Row) : Except LoadErr Row :=
  match colValE r "YYYYMMDD" with
  | .error e => .error e
  | .ok d =>
    match colValE r "hhmmss" with
    | .error e => .error e
    | .ok t =>
      match convertVal .float (strSliceVal d 4 6) with
      | .error e => .error e
      | .ok m =>
        match convertVal .float (strSliceVal d 6 8) with
        | .error e => .error e
        | .ok dy =>
          match convertVal .float (strSliceVal t 0 2) with
          | .error e => .error e
          | .ok h => .ok (r ++ [("Month", m), ("Day", dy), ("Hour", h)])

/-- `add_time_columns` from the source: derive `Month`, `Day`, `Hour` for
every row.  (The source fills the three columns column-by-column; the
row-by-row traversal here produces the same frame and the same failure
conditions.) -/
def addTimeColumns (rows : List Row) : Except LoadErr (List Row) := mapE timeRowAug rows

/-- The grouping key of `groupby(['Hour', 'YYYYMMDD'])` for one row. -/
def groupKey (r : Row) : Val × Val := (cellD r "Hour", cellD r "YYYYMMDD")

/-- The distinct `(Hour, YYYYMMDD)` keys occurring in a batch. -/
def keysOfRows (rows : List Row) : List (Val × Val) := (rows.map groupKey).dedup

/-- Is column `c` a numeric column of the frame (every cell a float)?
`groupby(...).mean()` reduces exactly the numeric non-key columns and
silently drops the rest. -/
def isNumCol (rows : List Row) (c : String) : Bool :=
  rows.all (fun r =>
    match r.lookup c with
    | some (.num _) => true
    | _ => false)

/-- Numeric content of a cell (only ever read under an `isNumCol` guard). -/
def qOf (v : Val) : ℚ :=
  match v with
  | .num q => q
  | _ => 0

/-- Arithmetic mean of column `c` over the rows `g`. -/
def meanAt (g : List Row) (c : String) : ℚ :=
  (g.map (fun r => qOf (cellD r c))).sum / (g.length : ℚ)

/-- One output row of `groupby(['Hour', 'YYYYMMDD'], as_index=False).mean()`:
the two key cells followed by the mean of every numeric non-key column,
the mean taken over the rows of the frame sharing the key. -/
def aggRow (allCols : List String) (rows : List Row) (k : Val × Val) : Row :=
  ("Hour", k.1) :: ("YYYYMMDD", k.2) ::
    (allCols.filter (fun c => !(c == "Hour") && !(c == "YYYYMMDD") && isNumCol rows c)).map
      (fun c => (c, Val.num (meanAt (rows.filter (fun r => decide (groupKey r = k))) c)))

/-- `df.groupby(['Hour', 'YYYYMMDD'], as_index=False).mean()`: one output
row per distinct key of the frame. -/
def groupAverage (allCols : List String) (rows : List Row) : List Row :=
  (keysOfRows rows).map (aggRow allCols rows)

/-- The three derived time columns appended by `add_time_columns`. -/
def timeColNames : List String := ["Month", "Day", "Hour"]

/-- Load, sanitize, derive time keys, and hourly-average one record source
(the per-file body of the `_average_hours` loader). -/
def loadFileAveraged (cols : List String) (f : CsvFile) : Except LoadErr (List Row) :=
  match loadFile cols f with
  | .error e => .error e
  | .ok cleaned =>
    match addTimeColumns cleaned with
    | .error e => .error e
    | .ok wt => .ok (groupAverage (cols ++ timeColNames) wt)

/-- `load_dataset_from_directory_` `partial` `_average_hours`: the spec's
`loadDirectoryHourlyAveraged` — per `.csv` file, sanitize then average by
`(Hour, YYYYMMDD)`, concatenating the per-file aggregates. -/
def loadDirectoryHourlyAveraged (files : List CsvFile) (cols : List String) :
    Except (Nat × LoadErr) (List Row) :=
  loadDirAux (loadFileAveraged cols) files 0

/-- `load_multiple_datasets_average_hours`: the spec's
`loadMultipleDirectoriesHourlyAveraged` — concatenate the hourly-averaged
result of each directory, in the order the directories are given. -/
def loadMultipleDirectoriesHourlyAveraged (dirs : List (List CsvFile))
    (cols : List String) : Except (Nat × LoadErr) (List Row) :=
  match dirs with
  | [] => .ok []
  | d :: ds =>
    match loadDirectoryHourlyAveraged d cols with
    | .error e => .error e
    | .ok r =>
      match loadMultipleDirectoriesHourlyAveraged ds cols with
      | .error e => .error e
      | .ok rest => .ok (r ++ rest)

/-- A Python `NameError`: a global name is referenced that is bound neither
by the module's imports nor by its own definitions. -/
inductive PyErr where
  | nameError
  deriving DecidableEq, Repr

/-- The global names bound by the module's import statements
(`import numpy as np`, `import os`, `import pandas as pd`, `import sys` —
lines 1 to 4 of the source; nothing else is ever imported). -/
def moduleImports : List String := ["np", "os", "pd", "sys"]

/-- Hinnant's civil-from-days calendar algorithm: day count since the Unix
epoch to `(year, month, day)` in the proleptic Gregorian calendar; used to
model `datetime.utcfromtimestamp(..).strftime('%Y-%m-%d %H:%M:%S')`. -/
def civilFromDays (z0 : Int) : Int × Int × Int :=
  let z := z0 + 719468
  let era : Int := (if 0 ≤ z then z else z - 146096) / 146097
  let doe : Int := z - era * 146097
  let yoe : Int := (doe - doe / 1460 + doe / 36524 - doe / 146096) / 365
  let y : Int := yoe + era * 400
  let doy : Int := doe - (365 * yoe + yoe / 4 - yoe / 100)
  let mp : Int := (5 * doy + 2) / 153
  let d : Int := doy - (153 * mp + 2) / 5 + 1
  let m : Int := mp + (if mp < 10 then 3 else -9)
  (y + (if m ≤ 2 then 1 else 0), m, d)

/-- Zero-pad a (nonnegative, below 100) number to two digits. -/
def pad2 (n : Int) : String := (if n < 10 then "0" else "") ++ toString n

/-- Zero-pad a (nonnegative) number to at least four digits. -/
def pad4 (n : Int) : String :=
  (if n < 10 then "000" else if n < 100 then "00" else if n < 1000 then "0" else "") ++
    toString n

/-- `datetime.utcfromtimestamp(t).strftime('%Y-%m-%d %H:%M:%S')`. -/
def formatUTC (t : Int) : String :=
  let days := t.ediv 86400
  let sod := t.emod 86400
  let c := civilFromDays days
  pad4 c.1 ++ "-" ++ pad2 c.2.1 ++ "-" ++ pad2 c.2.2 ++ " " ++
    pad2 (sod / 3600) ++ ":" ++ pad2 (sod % 3600 / 60) ++ ":" ++ pad2 (sod % 60)

/-- `convert_timestamp_to_string` from the source, the spec's
`convertTimestampToLocalString`.  Its body evaluates the free global name
`datetime`; Python resolves that name against the module's bindings at call
time, so the call can only reach the documented
`utcfromtimestamp(unixtime+800+2639)` formatting when `datetime` is
actually bound — otherwise every call raises `NameError`. -/
def convertTimestampToString (unixtime : Int) : Except PyErr String :=
  if moduleImports.contains "datetime" then
    .ok (formatUTC (unixtime + 800 + 2639))
  else .error .nameError

/-- Precondition of the idempotence property: no cell's text contains the
error marker `err`. -/
def noErrCells (rows : List Row) : Bool :=
  rows.all (fun r => r.all (fun kv => !containsErrTxt kv.2))

/-- Precondition of the idempotence property: no cell is missing. -/
def noNanCells (rows : List Row) : Bool :=
  rows.all (fun r => r.all (fun kv => !isNan kv.2))

/-- Is the cell already of the given catalog dtype? -/
def typedCell (t : PType) (v : Val) : Bool :=
  match t, v with
  | .float, .num _ => true
  | .strT, .str _ => true
  | .objT, _ => true
  | _, _ => false

/-- Precondition of the idempotence property: every selected column is in
the catalog and all of its cells already have the declared dtype. -/
def wellTyped (cols : List String) (rows : List Row) : Bool :=
  cols.all (fun c =>
    match keywordTypeMap.lookup c with
    | none => false
    | some t => rows.all (fun r => r.all (fun kv => !(kv.1 == c) || typedCell t kv.2)))

/-- Precondition of the idempotence property: every range-declared selected
column is within its declared `[min, max]` in every row. -/
def inLimits (cols : List String) (rows : List Row) : Bool :=
  cols.all (fun c =>
    match valueLimits.lookup c with
    | none => true
    | some (lo, hi) =>
      rows.all (fun r => !valBelow (cellD r c) lo && !valAbove (cellD r c) hi))

/-- Precondition of the time-key derivation property: every row has a
width-8 date string and a width-6 time string whose extracted slices are
decimal digits. -/
def timeFieldsOk (rows : List Row) : Bool :=
  rows.all (fun r =>
    (match r.lookup "YYYYMMDD" with
     | some (.str d) => d.length == 8 && (sliceChars d 4 8).all Char.isDigit
     | _ => false) &&
    (match r.lookup "hhmmss" with
     | some (.str t) => t.length == 6 && (sliceChars t 0 2).all Char.isDigit
     | _ => false))

/-- The date string of a row (used to state the time-key derivation claim). -/
def dStrOf (r : Row) : String :=
  match r.lookup "YYYYMMDD" with
  | some (.str s) => s
  | _ => ""

/-- The time string of a row (used to state the time-key derivation claim). -/
def tStrOf (r : Row) : String :=
  match r.lookup "hhmmss" with
  | some (.str s) => s
  | _ => ""

/-- The row the spec's Time-Key Deriver promises: the original row with
exactly three numeric columns appended, `Month` from date characters
`[4:6)`, `Day` from date characters `[6:8)`, `Hour` from time characters
`[0:2)`. -/
def timeAug (r : Row) : Row :=
  r ++ [("Month", Val.num (natOfDigits (sliceChars (dStrOf r) 4 6))),
        ("Day", Val.num (natOfDigits (sliceChars (dStrOf r) 6 8))),
        ("Hour", Val.num (natOfDigits (sliceChars (tStrOf r) 0 2)))]

/-! Concrete sample data used to instantiate the properties (the spec's
test scenarios: an in-range row, an out-of-range row, and two rows sharing
the `(Hour=9, YYYYMMDD="20230615")` key). -/

/-- The selected columns of the spec's scenarios. -/
def wCols : List String := ["AEZ-P_SUM", "YYYYMMDD", "hhmmss"]

/-- The in-range scenario row. -/
def wRow10 : Row :=
  [("AEZ-P_SUM", Val.num 10), ("YYYYMMDD", Val.str "20230615"), ("hhmmss", Val.str "093000")]

/-- The out-of-range scenario row (`AEZ-P_SUM = 80` exceeds the max 75). -/
def wRow80 : Row :=
  [("AEZ-P_SUM", Val.num 80), ("YYYYMMDD", Val.str "20230615"), ("hhmmss", Val.str "100000")]

/-- A second in-range row sharing the in-range row's `(Hour, date)` key. -/
def wRow20 : Row :=
  [("AEZ-P_SUM", Val.num 20), ("YYYYMMDD", Val.str "20230615"), ("hhmmss", Val.str "093500")]

/-- Sample file with one in-range and one out-of-range row. -/
def wFile1 : CsvFile := ⟨"a.csv", wCols, [wRow10, wRow80]⟩

/-- Sample file with two rows sharing the `(Hour, date)` key. -/
def wFile4 : CsvFile := ⟨"b.csv", wCols, [wRow10, wRow20]⟩

/-- Sample file holding only the value-10 row. -/
def wFileF : CsvFile := ⟨"f.csv", wCols, [wRow10]⟩

/-- Sample file holding only the value-20 row, same key as `wFileF`'s row. -/
def wFileG : CsvFile := ⟨"g.csv", wCols, [wRow20]⟩

/-- A sample file whose header lacks the bogus requested column. -/
def wFileB : CsvFile := ⟨"a.csv", ["AEZ-P_SUM"], [[("AEZ-P_SUM", Val.num 10)]]⟩

/-- The derived time cells of the scenario date `20230615`, hour 9. -/
def wAug : Row := [("Month", Val.num 6), ("Day", Val.num 15), ("Hour", Val.num 9)]

/-- The cleaned-and-time-keyed batch of `wFile4`. -/
def wWt4 : List Row := [wRow10 ++ wAug, wRow20 ++ wAug]

/-- The cleaned-and-time-keyed batch of `wFileF`. -/
def wWtF : List Row := [wRow10 ++ wAug]

/-- The cleaned-and-time-keyed batch of `wFileG`. -/
def wWtG : List Row := [wRow20 ++ wAug]

/-- The scenario grouping key `(Hour = 9, YYYYMMDD = "20230615")`. -/
def wKey : Val × Val := (Val.num 9, Val.str "20230615")

/-- The hourly-averaged batch of `wFileF`. -/
def wAggF : List Row :=
  [[("Hour", Val.num 9), ("YYYYMMDD", Val.str "20230615"),
    ("AEZ-P_SUM", Val.num 10), ("Month", Val.num 6), ("Day", Val.num 15)]]

/-! Helper lemmas about the embedded pipeline steps. -/

theorem mapE_mem {α β ε : Type} {f : α → Except ε β} :
    ∀ {l : List α} {out : List β}, mapE f l = .ok out → ∀ b ∈ out, ∃ a ∈ l, f a = .ok b := by
  intro l
  induction l with
  | nil =>
    intro out h b hb
    simp only [mapE] at h
    cases h
    simp at hb
  | cons a as ih =>
    intro out h b hb
    simp only [mapE] at h
    split at h
    · cases h
    · rename_i b0 hfa
      split at h
      · cases h
      · rename_i bs hmap
        cases h
        rcases List.mem_cons.mp hb with rfl | hb'
        · exact ⟨a, List.mem_cons_self a as, hfa⟩
        · obtain ⟨a', ha', hfa'⟩ := ih hmap b hb'
          exact ⟨a', List.mem_cons_of_mem a ha', hfa'⟩

theorem mapE_id {α ε : Type} {f : α → Except ε α} :
    ∀ {l : List α}, (∀ a ∈ l, f a = .ok a) → mapE f l = .ok l := by
  intro l
  induction l with
  | nil => intro _; rfl
  | cons a as ih =>
    intro h
    simp only [mapE]
    rw [h a (List.mem_cons_self a as), ih (fun x hx => h x (List.mem_cons_of_mem a hx))]

theorem lookup_mem {r : Row} {c : String} {v : Val} (h : r.lookup c = some v) : (c, v) ∈ r := by
  induction r with
  | nil => cases h
  | cons kv r ih =>
    obtain ⟨k, w⟩ := kv
    simp only [List.lookup] at h
    split at h
    · rename_i hbeq
      cases h
      have : c = k := eq_of_beq hbeq
      subst this
      exact List.mem_cons_self _ _
    · exact List.mem_cons_of_mem _ (ih h)

theorem lookup_of_mem_keys {r : Row} {c : String} (h : c ∈ rowKeys r) :
    ∃ v, r.lookup c = some v := by
  induction r with
  | nil => simp [rowKeys] at h
  | cons kv r ih =>
    obtain ⟨k, w⟩ := kv
    by_cases hck : (c == k) = true
    · exact ⟨w, by simp [List.lookup, hck]⟩
    · simp only [rowKeys, List.map, List.mem_cons] at h
      rcases h with rfl | h'
      · simp at hck
      · obtain ⟨v, hv⟩ := ih h'
        exact ⟨v, by simp [List.lookup, hck, hv]⟩

theorem dropna_mem {rows : List Row} {r : Row} (h : r ∈ dropna rows) :
    r ∈ rows ∧ ∀ kv ∈ r, kv.2 ≠ Val.nan := by
  have h1 := List.mem_filter.mp h
  refine ⟨h1.1, fun kv hkv hEq => ?_⟩
  have h2 := List.all_eq_true.mp h1.2 kv hkv
  rw [hEq] at h2
  simp [isNan] at h2

theorem dropna_eq_self {rows : List Row} (h : noNanCells rows = true) :
    dropna rows = rows :=
  List.filter_eq_self.mpr (List.all_eq_true.mp h)

theorem nanRow_nanRow (r : Row) : nanRow (nanRow r) = nanRow r := by
  simp [nanRow, List.map_map, Function.comp]

theorem rowKeys_nanRow (r : Row) : rowKeys (nanRow r) = rowKeys r := by
  simp [rowKeys, nanRow, List.map_map, Function.comp]

theorem cellD_nanRow (r : Row) (c : String) : cellD (nanRow r) c = Val.nan := by
  induction r with
  | nil => rfl
  | cons kv r ih =>
    obtain ⟨k, v⟩ := kv
    simp only [nanRow, List.map, cellD, List.lookup] at ih ⊢
    split
    · rfl
    · exact ih


theorem containsError_eq_self {v : Val} (h : containsErrTxt v = false) :
    containsError v = v := by
  simp [containsError, h]

theorem isNan_containsError (v : Val) :
    isNan (containsError v) = (containsErrTxt v || isNan v) := by
  by_cases h : containsErrTxt v = true
  · simp [containsError, h, isNan]
  · simp only [Bool.not_eq_true] at h
    simp [containsError, h]

theorem tagRow_eq_self {r : Row} (h : ∀ kv ∈ r, containsErrTxt kv.2 = false) :
    tagRow r = r := by
  unfold tagRow
  rw [List.map_congr_left (fun kv hkv => by rw [containsError_eq_self (h kv hkv)])]
  simp

theorem rowClean_tagRow (r : Row) :
    rowClean (tagRow r) = r.all (fun kv => !containsErrTxt kv.2 && !isNan kv.2) := by
  induction r with
  | nil => rfl
  | cons kv r ih =>
    simp only [rowClean, tagRow, List.map, List.all_cons] at ih ⊢
    rw [isNan_containsError, Bool.not_or, ih]

/-- C2: the error-tagging step and the row drop that follows it keep
exactly the rows in which no selected cell's text contains the substring
`err` (and no cell was already missing), and they keep those rows
unchanged; in particular every row with an `err` marker in any cell is
absent from the Cleaned Record Batch built from the survivors. -/
theorem spec_c2_errorMarkerElimination :
    ∀ rows : List Row,
      dropna (errTag rows) =
        rows.filter (fun r => r.all (fun kv => !containsErrTxt kv.2 && !isNan kv.2)) := by
  intro rows
  induction rows with
  | nil => rfl
  | cons r rs ih =>
    simp only [errTag, List.map, dropna] at ih ⊢
    rw [List.filter_cons, List.filter_cons]
    by_cases hka : r.all (fun kv => !containsErrTxt kv.2 && !isNan kv.2) = true
    · have hclean : rowClean (tagRow r) = true := (rowClean_tagRow r).trans hka
      have hself : tagRow r = r := by
        refine tagRow_eq_self (fun kv hkv => ?_)
        have h1 := List.all_eq_true.mp hka kv hkv
        have h2 : containsErrTxt kv.2 = false ∧ isNan kv.2 = false := by simpa using h1
        exact h2.1
      simp only [hclean, hka, if_true]
      rw [hself]
      exact congrArg (r :: ·) ih
    · have hclean : rowClean (tagRow r) = false := by
        rw [rowClean_tagRow r]
        simpa using hka
      have hka' : r.all (fun kv => !containsErrTxt kv.2 && !isNan kv.2) = false := by
        simpa using hka
      simp only [hclean, hka', if_false, Bool.false_eq_true]
      exact ih

/-- C9: the claim promises that `convert_timestamp_to_string` never fails
and returns the offset-adjusted formatted time string; on the code as
written every call instead raises `NameError`, because the body's free
global name `datetime` is bound by none of the module's imports
(`np`, `os`, `pd`, `sys`).  This theorem evaluates the embedded function:
for every input it returns the `NameError` outcome, never a string. -/
theorem spec_c9_convertTimestamp_nameError :
    ∀ u : Int, convertTimestampToString u = .error .nameError :=
  fun _ => rfl

/-- C6: assembling two directory lists concatenates the first list's rows
and then the second list's rows, in that order, with no deduplication. -/
theorem spec_c6_concatOrder :
    ∀ (dA dB : List CsvFile) (cols : List String) (rA rB : List Row),
      loadDirectoryHourlyAveraged dA cols = .ok rA →
      loadDirectoryHourlyAveraged dB cols = .ok rB →
      loadMultipleDirectoriesHourlyAveraged [dA, dB] cols = .ok (rA ++ rB) := by
  intro dA dB cols rA rB hA hB
  simp only [loadMultipleDirectoriesHourlyAveraged, hA, hB, List.append_nil]

/-- Witness for C6: the same single-file directory supplied twice; its
hourly-averaged row appears twice in the assembled result. -/
theorem spec_c6_concatOrder_witness :
    loadMultipleDirectoriesHourlyAveraged [[wFileF], [wFileF]] wCols = .ok (wAggF ++ wAggF) :=
  spec_c6_concatOrder [wFileF] [wFileF] wCols wAggF wAggF
    (by with_unfolding_all rfl) (by with_unfolding_all rfl)

theorem errTag_eq_self {rows : List Row} (h : noErrCells rows = true) :
    errTag rows = rows := by
  unfold errTag
  rw [List.map_congr_left (fun r hr => tagRow_eq_self (fun kv hkv => ?_)), List.map_id']
  have h1 := List.all_eq_true.mp (List.all_eq_true.mp h r hr) kv hkv
  simpa using h1

theorem convertVal_typed {t : PType} {v : Val} (h : typedCell t v = true) :
    convertVal t v = .ok v := by
  cases t <;> cases v <;> simp_all [typedCell, convertVal]

theorem convRowAt_id {t : PType} {c : String} {r : Row}
    (h : ∀ kv ∈ r, kv.1 = c → convertVal t kv.2 = .ok kv.2) :
    convRowAt t c r = .ok r := by
  unfold convRowAt
  refine mapE_id (fun kv hkv => ?_)
  by_cases hc : (kv.1 == c) = true
  · simp only [hc, if_true, h kv hkv (eq_of_beq hc), Except.map]
  · simp only [Bool.not_eq_true] at hc
    simp [hc]

theorem applyTypeConversion_id {cols : List String} {rows : List Row}
    (h : wellTyped cols rows = true) :
    applyTypeConversion cols rows = .ok rows := by
  induction cols with
  | nil => rfl
  | cons c cs ih =>
    have hall := List.all_eq_true.mp h
    have hc := hall c (List.mem_cons_self c cs)
    cases hl : keywordTypeMap.lookup c with
    | none => rw [hl] at hc; cases hc
    | some t =>
      rw [hl] at hc
      have hmap : mapE (convRowAt t c) rows = .ok rows := by
        refine mapE_id (fun r hr => convRowAt_id (fun kv hkv hk => ?_))
        have h1 := List.all_eq_true.mp (List.all_eq_true.mp hc r hr) kv hkv
        subst hk
        have h2 : typedCell t kv.2 = true := by
          rcases Bool.or_eq_true_iff.mp h1 with h' | h'
          · simp at h'
          · exact h'
        exact convertVal_typed h2
      have htail : wellTyped cs rows = true := by
        unfold wellTyped
        exact List.all_eq_true.mpr (fun c' hc' => hall c' (List.mem_cons_of_mem c hc'))
      simp only [applyTypeConversion, hl, hmap, ih htail]

theorem limitCol_id {c : String} {lo hi : ℚ} {rows : List Row}
    (h : ∀ r ∈ rows, valBelow (cellD r c) lo = false ∧ valAbove (cellD r c) hi = false) :
    limitCol c lo hi rows = rows := by
  have hp1 : ∀ r ∈ rows, (if valBelow (cellD r c) lo then nanRow r else r) = id r :=
    fun r hr => by simp [(h r hr).1]
  have h1 : rows.map (fun r => if valBelow (cellD r c) lo then nanRow r else r) = rows := by
    rw [List.map_congr_left hp1, List.map_id]
  have hp2 : ∀ r ∈ rows, (if valAbove (cellD r c) hi then nanRow r else r) = id r :=
    fun r hr => by simp [(h r hr).2]
  unfold limitCol
  rw [h1, List.map_congr_left hp2, List.map_id]

theorem applyLimits_id {cols : List String} {rows : List Row}
    (h : inLimits cols rows = true) :
    applyLimits cols rows = rows := by
  induction cols with
  | nil => rfl
  | cons c cs ih =>
    have hall := List.all_eq_true.mp h
    have hc := hall c (List.mem_cons_self c cs)
    have htail : inLimits cs rows = true := by
      unfold inLimits
      exact List.all_eq_true.mpr (fun c' hc' => hall c' (List.mem_cons_of_mem c hc'))
    cases hl : valueLimits.lookup c with
    | none => simp only [applyLimits, hl, ih htail]
    | some p =>
      obtain ⟨lo, hi⟩ := p
      rw [hl] at hc
      have hid : limitCol c lo hi rows = rows := by
        refine limitCol_id (fun r hr => ?_)
        have h1 := List.all_eq_true.mp hc r hr
        have h2 : valBelow (cellD r c) lo = false ∧ valAbove (cellD r c) hi = false := by
          simpa using h1
        exact h2
      simp only [applyLimits, hl, hid, ih htail]

/-- C7: sanitization is idempotent on already-clean input — a batch with no
error markers, no missing cells, catalog-typed cells in every selected
column, and all range-declared selected columns within their declared
bounds passes the five-step sanitization sequence unchanged. -/
theorem spec_c7_sanitizeIdempotent :
    ∀ (cols : List String) (rows : List Row),
      noErrCells rows = true → noNanCells rows = true →
      wellTyped cols rows = true → inLimits cols rows = true →
      sanitize cols rows = .ok rows := by
  intro cols rows hErr hNan hTy hLim
  unfold sanitize
  rw [errTag_eq_self hErr, dropna_eq_self hNan, applyTypeConversion_id hTy]
  show Except.ok (dropna (applyLimits cols rows)) = Except.ok rows
  rw [applyLimits_id hLim, dropna_eq_self hNan]

/-- Witness for C7: the clean scenario row passes sanitization unchanged. -/
theorem spec_c7_sanitizeIdempotent_witness :
    sanitize wCols [wRow10] = .ok [wRow10] :=
  spec_c7_sanitizeIdempotent wCols [wRow10] (by decide) (by decide) (by decide) (by decide)

theorem mapE_ok_of_map {α β ε : Type} {f : α → Except ε β} {g : α → β} :
    ∀ {l : List α}, (∀ a ∈ l, f a = .ok (g a)) → mapE f l = .ok (l.map g) := by
  intro l
  induction l with
  | nil => intro _; rfl
  | cons a as ih =>
    intro h
    simp only [mapE, List.map]
    rw [h a (List.mem_cons_self a as), ih (fun x hx => h x (List.mem_cons_of_mem a hx))]

theorem parseDecimal_digits {l : List Char} (h1 : l ≠ []) (h2 : l.all Char.isDigit = true) :
    parseDecimal (String.mk l) = some ((natOfDigits l : ℚ)) := by
  have hdig := List.all_eq_true.mp h2
  have hdot : ∀ c ∈ l, ((fun c => !(c == '.')) c) = true := by
    intro c hc
    have hd := hdig c hc
    have hne : c ≠ '.' := by
      intro hEq
      rw [hEq] at hd
      exact absurd hd (by decide)
    simpa using hne
  have htake : l.takeWhile (fun c => !(c == '.')) = l := List.takeWhile_eq_self_iff.mpr hdot
  have hdrop : l.dropWhile (fun c => !(c == '.')) = [] := List.dropWhile_eq_nil_iff.mpr hdot
  have hsign : ¬ (l.head? = some '-' ∨ l.head? = some '+') := by
    rintro (hEq | hEq) <;>
      (cases l with
       | nil => cases hEq
       | cons c cs =>
         have hc := hdig c (List.mem_cons_self c cs)
         simp only [List.head?, Option.some.injEq] at hEq
         rw [hEq] at hc
         exact absurd hc (by decide))
  have hsgn : ¬ l.head? = some '-' := fun hh => hsign (Or.inl hh)
  have hhm : (String.mk l).data = l := rfl
  simp only [parseDecimal, hhm, if_neg hsign, htake, hdrop, if_neg hsgn, one_mul,
    if_pos (And.intro h1 h2)]

/-- C5: on a cleaned batch whose date strings have width 8 and time strings
width 6 with digits in the extracted slices, `add_time_columns` appends
exactly the three numeric columns `Month` (date characters `[4:6)`),
`Day` (date characters `[6:8)`) and `Hour` (time characters `[0:2)`),
leaving every existing column and row unchanged. -/
theorem spec_c5_timeKeyDerivation :
    ∀ rows : List Row, timeFieldsOk rows = true →
      addTimeColumns rows = .ok (rows.map timeAug) := by
  intro rows h
  unfold addTimeColumns
  refine mapE_ok_of_map (fun r hr => ?_)
  have hrow := List.all_eq_true.mp h r hr
  obtain ⟨hd, ht⟩ :
      (match r.lookup "YYYYMMDD" with
       | some (.str d) => d.length == 8 && (sliceChars d 4 8).all Char.isDigit
       | _ => false) = true ∧
      (match r.lookup "hhmmss" with
       | some (.str t) => t.length == 6 && (sliceChars t 0 2).all Char.isDigit
       | _ => false) = true := by
    simpa [timeFieldsOk] using hrow
  cases hld : r.lookup "YYYYMMDD" with
  | none => rw [hld] at hd; cases hd
  | some vd =>
    cases vd with
    | num q => rw [hld] at hd; cases hd
    | nan => rw [hld] at hd; cases hd
    | str d =>
      rw [hld] at hd
      cases hlt : r.lookup "hhmmss" with
      | none => rw [hlt] at ht; cases ht
      | some vt =>
        cases vt with
        | num q => rw [hlt] at ht; cases ht
        | nan => rw [hlt] at ht; cases ht
        | str t =>
          rw [hlt] at ht
          obtain ⟨hdlen, hdall⟩ : d.length = 8 ∧ (sliceChars d 4 8).all Char.isDigit = true := by
            simpa using hd
          obtain ⟨htlen, htall⟩ : t.length = 6 ∧ (sliceChars t 0 2).all Char.isDigit = true := by
            simpa using ht
          have hdata : d.data.length = 8 := hdlen
          have htdata : t.data.length = 6 := htlen
          have h46 : sliceChars d 4 6 = (sliceChars d 4 8).take 2 := by
            simp [sliceChars, List.take_take]
          have h68 : sliceChars d 6 8 = (sliceChars d 4 8).drop 2 := by
            simp only [sliceChars]
            rw [List.drop_take, List.drop_drop]
          have hall46 : (sliceChars d 4 6).all Char.isDigit = true := by
            rw [h46]
            exact List.all_eq_true.mpr
              (fun c hc => List.all_eq_true.mp hdall c (List.take_subset _ _ hc))
          have hall68 : (sliceChars d 6 8).all Char.isDigit = true := by
            rw [h68]
            exact List.all_eq_true.mpr
              (fun c hc => List.all_eq_true.mp hdall c (List.drop_subset _ _ hc))
          have hne46 : sliceChars d 4 6 ≠ [] := by
            have : (sliceChars d 4 6).length = 2 := by simp [sliceChars, hdata]
            intro hEq; rw [hEq] at this; cases this
          have hne68 : sliceChars d 6 8 ≠ [] := by
            have : (sliceChars d 6 8).length = 2 := by simp [sliceChars, hdata]
            intro hEq; rw [hEq] at this; cases this
          have hne02 : sliceChars t 0 2 ≠ [] := by
            have : (sliceChars t 0 2).length = 2 := by simp [sliceChars, htdata]
            intro hEq; rw [hEq] at this; cases this
          simp only [timeRowAug, colValE, hld, hlt, strSliceVal, convertVal,
            parseDecimal_digits hne46 hall46, parseDecimal_digits hne68 hall68,
            parseDecimal_digits hne02 htall, timeAug, dStrOf, tStrOf]

/-- Witness for C5: the scenario row with date `20230615` and time `093000`
gains exactly `Month = 6`, `Day = 15`, `Hour = 9`. -/
theorem spec_c5_timeKeyDerivation_witness :
    addTimeColumns [wRow10] = .ok ([wRow10].map timeAug) ∧
    [wRow10].map timeAug = [wRow10 ++ wAug] :=
  ⟨spec_c5_timeKeyDerivation [wRow10] (by decide), by with_unfolding_all rfl⟩

theorem applyTypeConversion_err (cols : List String) (rows : List Row)
    (h : ∃ c ∈ cols, keywordTypeMap.lookup c = none) :
    ∃ e, applyTypeConversion cols rows = .error e := by
  induction cols generalizing rows with
  | nil =>
    obtain ⟨c, hc, _⟩ := h
    simp at hc
  | cons c0 cs ih =>
    obtain ⟨c, hc, hnone⟩ := h
    cases hl : keywordTypeMap.lookup c0 with
    | none => exact ⟨.keyError, by simp [applyTypeConversion, hl]⟩
    | some t =>
      have hc' : c ∈ cs := by
        rcases List.mem_cons.mp hc with rfl | h'
        · rw [hl] at hnone; cases hnone
        · exact h'
      cases hm : mapE (convRowAt t c0) rows with
      | error e => exact ⟨e, by simp [applyTypeConversion, hl, hm]⟩
      | ok rows' =>
        obtain ⟨e, he⟩ := ih rows' ⟨c, hc', hnone⟩
        exact ⟨e, by simp [applyTypeConversion, hl, hm, he]⟩

theorem loadFile_err (cols : List String) (f : CsvFile)
    (h : ∃ c ∈ cols, keywordTypeMap.lookup c = none) :
    ∃ e, loadFile cols f = .error e := by
  cases hs : selectFrame cols f with
  | error e => exact ⟨e, by simp [loadFile, hs]⟩
  | ok sel =>
    obtain ⟨e, he⟩ := applyTypeConversion_err cols (dropna (errTag sel)) h
    exact ⟨e, by simp [loadFile, hs, sanitize, he]⟩

/-- Counterexample to C8 as stated: a load request for the column `BOGUS`,
which is absent from the column catalog, does not fail at all when the
directory holds no `.csv` file — it returns an empty batch, and a fortiori
no error is raised before any file is read. -/
theorem spec_c8_unknownColumn_counterexample :
    keywordTypeMap.lookup "BOGUS" = none ∧ loadDirectory [] ["BOGUS"] = .ok [] :=
  ⟨rfl, rfl⟩

/-- C8 (amended): requesting a column absent from the catalog makes the
load fail only while processing the first `.csv` file — after that file has
already been opened and read (the files-read counter accompanying the error
is 1, not 0) — and no partial result is produced.  The error raised on that
first file is a `KeyError` or a `ValueError`: the unknown-column `KeyError`
itself, unless an earlier selected column of that file fails `astype`
conversion first, which surfaces as a `ValueError` instead.  If the
directory holds no `.csv` file, no error is raised. -/
theorem spec_c8_unknownColumn_amended :
    ∀ (files : List CsvFile) (cols : List String),
      files.any (fun f => strEndsWith f.name ".csv") = true →
      (∃ c ∈ cols, keywordTypeMap.lookup c = none) →
      ∃ e, loadDirectory files cols = .error (1, e) := by
  intro files cols hAny hEx
  revert hAny
  induction files with
  | nil => intro hAny; simp at hAny
  | cons f fs ih =>
    intro hAny
    by_cases hcsv : strEndsWith f.name ".csv" = true
    · obtain ⟨e, he⟩ := loadFile_err cols f hEx
      exact ⟨e, by simp [loadDirectory, loadDirAux, hcsv, he]⟩
    · have hAny' : fs.any (fun f => strEndsWith f.name ".csv") = true := by
        simpa [hcsv] using hAny
      obtain ⟨e, he⟩ := ih hAny'
      exact ⟨e, by simpa [loadDirectory, loadDirAux, hcsv] using he⟩

/-- Witness for the amended C8: one readable `.csv` file plus the unknown
column `BOGUS` — the failure carries files-read count 1. -/
theorem spec_c8_unknownColumn_amended_witness :
    ∃ e, loadDirectory [wFileB] ["BOGUS"] = .error (1, e) :=
  spec_c8_unknownColumn_amended [wFileB] ["BOGUS"] (by decide) ⟨"BOGUS", by decide, rfl⟩

theorem loadDirAux_mem {perFile : CsvFile → Except LoadErr (List Row)} :
    ∀ {fs : List CsvFile} {n : Nat} {out : List Row} {r : Row},
      loadDirAux perFile fs n = .ok out → r ∈ out →
      ∃ f ∈ fs, ∃ o, perFile f = .ok o ∧ r ∈ o := by
  intro fs
  induction fs with
  | nil =>
    intro n out r h hr
    cases h
    simp at hr
  | cons f fs ih =>
    intro n out r h hr
    by_cases hcsv : strEndsWith f.name ".csv" = true
    · rw [loadDirAux, if_pos hcsv] at h
      cases hp : perFile f with
      | error e => rw [hp] at h; cases h
      | ok rows =>
        rw [hp] at h
        cases hrest : loadDirAux perFile fs (n + 1) with
        | error x => rw [hrest] at h; cases h
        | ok rest =>
          rw [hrest] at h
          cases h
          rcases List.mem_append.mp hr with hin | hin
          · exact ⟨f, List.mem_cons_self f fs, rows, hp, hin⟩
          · obtain ⟨f', hf', o, ho, hro⟩ := ih hrest hin
            exact ⟨f', List.mem_cons_of_mem f hf', o, ho, hro⟩
    · rw [loadDirAux, if_neg hcsv] at h
      obtain ⟨f', hf', o, ho, hro⟩ := ih h hr
      exact ⟨f', List.mem_cons_of_mem f hf', o, ho, hro⟩

theorem selectFrame_keys {cols : List String} {f : CsvFile} {sel : List Row}
    (h : selectFrame cols f = .ok sel) : ∀ r ∈ sel, rowKeys r = cols := by
  intro r hr
  unfold selectFrame at h
  split at h
  · cases h
    obtain ⟨r0, _, rfl⟩ := List.mem_map.mp hr
    simp only [rowKeys, List.map_map]
    have hp : ∀ c ∈ cols, (Prod.fst ∘ fun c => (c, cellD r0 c)) c = id c := fun c _ => rfl
    rw [List.map_congr_left hp, List.map_id]
  · cases h

theorem rowKeys_tagRow (r : Row) : rowKeys (tagRow r) = rowKeys r := by
  simp only [rowKeys, tagRow, List.map_map]
  have hp : ∀ kv ∈ r, (Prod.fst ∘ fun kv => (kv.1, containsError kv.2)) kv = Prod.fst kv :=
    fun kv _ => rfl
  rw [List.map_congr_left hp]

theorem mapE_fst_eq {ε : Type} {g : String × Val → Except ε (String × Val)}
    (hg : ∀ kv w, g kv = .ok w → w.1 = kv.1) :
    ∀ {r r' : Row}, mapE g r = .ok r' → rowKeys r' = rowKeys r := by
  intro r
  induction r with
  | nil =>
    intro r' h
    cases h
    rfl
  | cons kv r ih =>
    intro r' h
    simp only [mapE] at h
    cases hk : g kv with
    | error e => rw [hk] at h; cases h
    | ok w =>
      rw [hk] at h
      cases hrest : mapE g r with
      | error e => rw [hrest] at h; cases h
      | ok r2 =>
        rw [hrest] at h
        cases h
        simp only [rowKeys, List.map]
        rw [hg kv w hk]
        have := ih hrest
        simp only [rowKeys] at this
        rw [this]

theorem convRowAt_keys {t : PType} {c : String} {r r' : Row}
    (h : convRowAt t c r = .ok r') : rowKeys r' = rowKeys r := by
  refine mapE_fst_eq ?_ h
  intro kv w hkv
  by_cases hc : (kv.1 == c) = true
  · rw [if_pos hc] at hkv
    cases hv : convertVal t kv.2 with
    | error e => rw [hv] at hkv; cases hkv
    | ok v =>
      rw [hv] at hkv
      simp only [Except.map] at hkv
      cases hkv
      rfl
  · rw [if_neg hc] at hkv
    cases hkv
    rfl

theorem applyTypeConversion_keys :
    ∀ {cols : List String} {rows out : List Row},
      applyTypeConversion cols rows = .ok out →
      ∀ r' ∈ out, ∃ r ∈ rows, rowKeys r' = rowKeys r := by
  intro cols
  induction cols with
  | nil =>
    intro rows out h r' hr'
    cases h
    exact ⟨r', hr', rfl⟩
  | cons c cs ih =>
    intro rows out h r' hr'
    cases hl : keywordTypeMap.lookup c with
    | none =>
      simp only [applyTypeConversion, hl] at h
      cases h
    | some t =>
      simp only [applyTypeConversion, hl] at h
      cases hm : mapE (convRowAt t c) rows with
      | error e => rw [hm] at h; cases h
      | ok rows' =>
        rw [hm] at h
        obtain ⟨rm, hrm, hkeys⟩ := ih h r' hr'
        obtain ⟨r, hr, hconv⟩ := mapE_mem hm rm hrm
        exact ⟨r, hr, hkeys.trans (convRowAt_keys hconv)⟩

theorem limitCol_mem {c : String} {lo hi : ℚ} {rows : List Row} {r' : Row}
    (h : r' ∈ limitCol c lo hi rows) : ∃ r ∈ rows, r' = r ∨ r' = nanRow r := by
  unfold limitCol at h
  obtain ⟨rm, hrm, rfl⟩ := List.mem_map.mp h
  obtain ⟨r, hr, rfl⟩ := List.mem_map.mp hrm
  by_cases h1 : valBelow (cellD r c) lo = true
  · rw [if_pos h1]
    by_cases h2 : valAbove (cellD (nanRow r) c) hi = true
    · rw [if_pos h2]
      exact ⟨r, hr, Or.inr (nanRow_nanRow r)⟩
    · rw [if_neg h2]
      exact ⟨r, hr, Or.inr rfl⟩
  · rw [if_neg h1]
    by_cases h2 : valAbove (cellD r c) hi = true
    · rw [if_pos h2]
      exact ⟨r, hr, Or.inr rfl⟩
    · rw [if_neg h2]
      exact ⟨r, hr, Or.inl rfl⟩

theorem applyLimits_mem :
    ∀ {cols : List String} {rows : List Row} {r' : Row},
      r' ∈ applyLimits cols rows → ∃ r ∈ rows, r' = r ∨ r' = nanRow r := by
  intro cols
  induction cols with
  | nil =>
    intro rows r' h
    exact ⟨r', h, Or.inl rfl⟩
  | cons c cs ih =>
    intro rows r' h
    cases hl : valueLimits.lookup c with
    | none =>
      simp only [applyLimits, hl] at h
      exact ih h
    | some p =>
      obtain ⟨lo, hi⟩ := p
      simp only [applyLimits, hl] at h
      obtain ⟨rm, hrm, hcase⟩ := ih h
      obtain ⟨r, hr, hcase'⟩ := limitCol_mem hrm
      rcases hcase with rfl | rfl
      · exact ⟨r, hr, hcase'⟩
      · rcases hcase' with h2 | h2
        · rw [h2]
          exact ⟨r, hr, Or.inr rfl⟩
        · rw [h2, nanRow_nanRow]
          exact ⟨r, hr, Or.inr rfl⟩

theorem loadFile_keys {cols : List String} {f : CsvFile} {out : List Row}
    (h : loadFile cols f = .ok out) : ∀ r ∈ out, rowKeys r = cols := by
  intro r hr
  cases hs : selectFrame cols f with
  | error e =>
    simp only [loadFile, hs] at h
    cases h
  | ok sel =>
    simp only [loadFile, hs, sanitize] at h
    cases hconv : applyTypeConversion cols (dropna (errTag sel)) with
    | error e => rw [hconv] at h; cases h
    | ok r3 =>
      rw [hconv] at h
      cases h
      have hr1 := (dropna_mem hr).1
      obtain ⟨rm, hrm, hcase⟩ := applyLimits_mem hr1
      obtain ⟨r2, hr2, hkeys2⟩ := applyTypeConversion_keys hconv rm hrm
      have hr2' := (dropna_mem hr2).1
      obtain ⟨r1, hr1', rfl⟩ := List.mem_map.mp hr2'
      have hk1 : rowKeys (tagRow r1) = cols := by
        rw [rowKeys_tagRow]
        exact selectFrame_keys hs r1 hr1'
      have hkm : rowKeys rm = cols := hkeys2.trans hk1
      rcases hcase with rfl | rfl
      · exact hkm
      · rw [rowKeys_nanRow]
        exact hkm

theorem loadFile_clean {cols : List String} {f : CsvFile} {out : List Row}
    (h : loadFile cols f = .ok out) : ∀ r ∈ out, ∀ kv ∈ r, kv.2 ≠ Val.nan := by
  intro r hr
  cases hs : selectFrame cols f with
  | error e =>
    simp only [loadFile, hs] at h
    cases h
  | ok sel =>
    simp only [loadFile, hs, sanitize] at h
    cases hconv : applyTypeConversion cols (dropna (errTag sel)) with
    | error e => rw [hconv] at h; cases h
    | ok r3 =>
      rw [hconv] at h
      cases h
      exact (dropna_mem hr).2

/-- C3: a Cleaned Record Batch (the result of `loadDirectory`, before any
aggregation) contains no missing value — every row of the result holds a
present, non-missing value in every selected column. -/
theorem spec_c3_noMissingValues :
    ∀ (files : List CsvFile) (cols : List String) (out : List Row),
      loadDirectory files cols = .ok out →
      ∀ r ∈ out, ∀ c ∈ cols, ∃ v, r.lookup c = some v ∧ v ≠ Val.nan := by
  intro files cols out h r hr c hc
  obtain ⟨f, _, o, ho, hro⟩ := loadDirAux_mem h hr
  have hkeys := loadFile_keys ho r hro
  have hck : c ∈ rowKeys r := by rw [hkeys]; exact hc
  obtain ⟨v, hv⟩ := lookup_of_mem_keys hck
  exact ⟨v, hv, loadFile_clean ho r hro (c, v) (lookup_mem hv)⟩

theorem convertVal_float_shape {v w : Val} (h : convertVal .float v = .ok w) :
    (∃ q, w = Val.num q) ∨ w = Val.nan := by
  cases v with
  | num q =>
    cases h
    exact Or.inl ⟨q, rfl⟩
  | nan =>
    cases h
    exact Or.inr rfl
  | str s =>
    simp only [convertVal] at h
    cases hp : parseDecimal s with
    | none => rw [hp] at h; cases h
    | some q =>
      rw [hp] at h
      cases h
      exact Or.inl ⟨q, rfl⟩

theorem mapE_cons_ok {α β ε : Type} {f : α → Except ε β} {a : α} {as : List α} {out : List β}
    (h : mapE f (a :: as) = .ok out) :
    ∃ b bs, f a = .ok b ∧ mapE f as = .ok bs ∧ out = b :: bs := by
  simp only [mapE] at h
  cases hfa : f a with
  | error e => rw [hfa] at h; cases h
  | ok b =>
    rw [hfa] at h
    cases hrest : mapE f as with
    | error e => rw [hrest] at h; cases h
    | ok bs =>
      rw [hrest] at h
      cases h
      exact ⟨b, bs, rfl, rfl, rfl⟩

theorem convRow_lookup {t : PType} {c : String} :
    ∀ {r r' : Row}, convRowAt t c r = .ok r' →
      (r.lookup c = none ∧ r'.lookup c = none) ∨
        ∃ v w, r.lookup c = some v ∧ convertVal t v = .ok w ∧ r'.lookup c = some w := by
  intro r
  induction r with
  | nil =>
    intro r' h
    cases h
    exact Or.inl ⟨rfl, rfl⟩
  | cons kv r ih =>
    obtain ⟨k, v⟩ := kv
    intro r' h
    obtain ⟨b, bs, hfa, hrest, rfl⟩ := mapE_cons_ok h
    by_cases hc : (k == c) = true
    · rw [if_pos hc] at hfa
      cases hv : convertVal t v with
      | error e =>
        rw [hv] at hfa
        simp [Except.map] at hfa
      | ok w =>
        rw [hv] at hfa
        simp only [Except.map] at hfa
        cases hfa
        have hck : (c == k) = true := by
          rw [eq_of_beq hc]
          exact beq_self_eq_true c
        exact Or.inr ⟨v, w, by simp [List.lookup, hck], hv, by simp [List.lookup, hck]⟩
    · rw [if_neg hc] at hfa
      cases hfa
      have hkc : k ≠ c := by
        intro hEq
        rw [hEq] at hc
        exact hc (beq_self_eq_true c)
      have hck : (c == k) = false := beq_eq_false_iff_ne.mpr (Ne.symm hkc)
      rcases ih hrest with ⟨h1, h2⟩ | ⟨v', w', h1, h2, h3⟩
      · exact Or.inl ⟨by simp [List.lookup, hck, h1], by simp [List.lookup, hck, h2]⟩
      · exact Or.inr ⟨v', w', by simp [List.lookup, hck, h1], h2,
          by simp [List.lookup, hck, h3]⟩

theorem convRow_lookup_ne {t : PType} {c c' : String} (hne : c' ≠ c) :
    ∀ {r r' : Row}, convRowAt t c r = .ok r' → r'.lookup c' = r.lookup c' := by
  intro r
  induction r with
  | nil =>
    intro r' h
    cases h
    rfl
  | cons kv r ih =>
    obtain ⟨k, v⟩ := kv
    intro r' h
    obtain ⟨b, bs, hfa, hrest, rfl⟩ := mapE_cons_ok h
    by_cases hc : (k == c) = true
    · rw [if_pos hc] at hfa
      cases hv : convertVal t v with
      | error e =>
        rw [hv] at hfa
        simp [Except.map] at hfa
      | ok w =>
        rw [hv] at hfa
        simp only [Except.map] at hfa
        cases hfa
        have hck : (c' == k) = false := by
          refine beq_eq_false_iff_ne.mpr (fun hEq => hne ?_)
          rw [hEq, eq_of_beq hc]
        simp [List.lookup, hck, ih hrest]
    · rw [if_neg hc] at hfa
      cases hfa
      by_cases hck : (c' == k) = true
      · simp [List.lookup, hck]
      · have hck' : (c' == k) = false := by
          simpa using hck
        simp [List.lookup, hck', ih hrest]

theorem lookup_mem_fst {α β : Type} [BEq α] [LawfulBEq α] {l : List (α × β)} {a : α} {b : β}
    (h : List.lookup a l = some b) : a ∈ l.map Prod.fst := by
  induction l with
  | nil => cases h
  | cons kv l ih =>
    obtain ⟨k, w⟩ := kv
    simp only [List.lookup] at h
    split at h
    · rename_i hbeq
      simp only [List.map, List.mem_cons]
      exact Or.inl (eq_of_beq hbeq)
    · exact List.mem_cons_of_mem _ (ih h)

theorem limitsFloat (c : String) (p : ℚ × ℚ) (h : valueLimits.lookup c = some p) :
    keywordTypeMap.lookup c = some PType.float := by
  have hmem := lookup_mem_fst h
  simp only [valueLimits, List.map, List.mem_cons, List.not_mem_nil, or_false] at hmem
  rcases hmem with rfl | rfl | rfl | rfl | rfl | rfl <;> rfl

theorem applyTypeConversion_shape_pres (c : String) :
    ∀ (cols : List String) (rows out : List Row),
      keywordTypeMap.lookup c = some PType.float →
      applyTypeConversion cols rows = .ok out →
      (∀ r ∈ rows, ∀ v, r.lookup c = some v → (∃ q, v = Val.num q) ∨ v = Val.nan) →
      ∀ r' ∈ out, ∀ v, r'.lookup c = some v → (∃ q, v = Val.num q) ∨ v = Val.nan := by
  intro cols
  induction cols with
  | nil =>
    intro rows out _ h hshape
    cases h
    exact hshape
  | cons c0 cs ih =>
    intro rows out hfl h hshape
    cases hl : keywordTypeMap.lookup c0 with
    | none =>
      simp only [applyTypeConversion, hl] at h
      cases h
    | some t =>
      simp only [applyTypeConversion, hl] at h
      cases hm : mapE (convRowAt t c0) rows with
      | error e => rw [hm] at h; cases h
      | ok rows' =>
        rw [hm] at h
        refine ih rows' out hfl h ?_
        intro rm hrm v hv
        obtain ⟨r, hr, hconv⟩ := mapE_mem hm rm hrm
        by_cases hcc : c = c0
        · subst hcc
          have ht : t = PType.float := by
            rw [hfl] at hl
            exact (Option.some.injEq _ _ ▸ hl).symm
          subst ht
          rcases convRow_lookup hconv with ⟨_, h2⟩ | ⟨v0, w, _, h2, h3⟩
          · rw [hv] at h2
            cases h2
          · rw [hv] at h3
            cases h3
            exact convertVal_float_shape h2
        · refine hshape r hr v ?_
          rw [← convRow_lookup_ne hcc hconv]
          exact hv

theorem applyTypeConversion_float_shape (c : String) :
    ∀ (cols : List String) (rows out : List Row),
      c ∈ cols → keywordTypeMap.lookup c = some PType.float →
      applyTypeConversion cols rows = .ok out →
      ∀ r' ∈ out, ∀ v, r'.lookup c = some v → (∃ q, v = Val.num q) ∨ v = Val.nan := by
  intro cols
  induction cols with
  | nil =>
    intro rows out hc
    simp at hc
  | cons c0 cs ih =>
    intro rows out hc hfl h
    cases hl : keywordTypeMap.lookup c0 with
    | none =>
      simp only [applyTypeConversion, hl] at h
      cases h
    | some t =>
      simp only [applyTypeConversion, hl] at h
      cases hm : mapE (convRowAt t c0) rows with
      | error e => rw [hm] at h; cases h
      | ok rows' =>
        rw [hm] at h
        by_cases hcc : c = c0
        · subst hcc
          have ht : t = PType.float := by
            rw [hfl] at hl
            exact (Option.some.injEq _ _ ▸ hl).symm
          subst ht
          refine applyTypeConversion_shape_pres c cs rows' out hfl h ?_
          intro rm hrm v hv
          obtain ⟨r, hr, hconv⟩ := mapE_mem hm rm hrm
          rcases convRow_lookup hconv with ⟨_, h2⟩ | ⟨v0, w, _, h2, h3⟩
          · rw [hv] at h2
            cases h2
          · rw [hv] at h3
            cases h3
            exact convertVal_float_shape h2
        · have hc' : c ∈ cs := by
            rcases List.mem_cons.mp hc with h' | h'
            · exact absurd h' hcc
            · exact h'
          exact ih rows' out hc' hfl h

theorem limitCol_okAt {c : String} {lo hi : ℚ} {rows : List Row} :
    ∀ r' ∈ limitCol c lo hi rows,
      valBelow (cellD r' c) lo = false ∧ valAbove (cellD r' c) hi = false := by
  intro r' hr'
  unfold limitCol at hr'
  obtain ⟨x, hx, rfl⟩ := List.mem_map.mp hr'
  obtain ⟨r, hr, rfl⟩ := List.mem_map.mp hx
  by_cases hA : valAbove (cellD (if valBelow (cellD r c) lo then nanRow r else r) c) hi = true
  · rw [if_pos hA, cellD_nanRow]
    exact ⟨rfl, rfl⟩
  · rw [if_neg hA]
    by_cases hB : valBelow (cellD r c) lo = true
    · rw [if_pos hB] at hA ⊢
      rw [cellD_nanRow]
      refine ⟨rfl, ?_⟩
      rw [cellD_nanRow] at hA
      simpa using hA
    · rw [if_neg hB] at hA ⊢
      exact ⟨by simpa using hB, by simpa using hA⟩

theorem applyLimits_okAt :
    ∀ (cols : List String) (rows : List Row) (c : String) (lo hi : ℚ),
      c ∈ cols → valueLimits.lookup c = some (lo, hi) →
      ∀ r' ∈ applyLimits cols rows,
        valBelow (cellD r' c) lo = false ∧ valAbove (cellD r' c) hi = false := by
  intro cols
  induction cols with
  | nil =>
    intro rows c lo hi hc
    simp at hc
  | cons c0 cs ih =>
    intro rows c lo hi hc hl r' hr'
    by_cases hcc : c = c0
    · subst hcc
      simp only [applyLimits, hl] at hr'
      obtain ⟨rm, hrm, hcase⟩ := applyLimits_mem hr'
      have hok := limitCol_okAt rm hrm
      rcases hcase with rfl | rfl
      · exact hok
      · rw [cellD_nanRow]
        exact ⟨rfl, rfl⟩
    · have hc' : c ∈ cs := by
        rcases List.mem_cons.mp hc with h' | h'
        · exact absurd h' hcc
        · exact h'
      cases hl0 : valueLimits.lookup c0 with
      | none =>
        simp only [applyLimits, hl0] at hr'
        exact ih rows c lo hi hc' hl r' hr'
      | some p =>
        obtain ⟨lo0, hi0⟩ := p
        simp only [applyLimits, hl0] at hr'
        exact ih _ c lo hi hc' hl r' hr'

theorem loadFile_parts {cols : List String} {f : CsvFile} {out : List Row}
    (h : loadFile cols f = .ok out) :
    ∃ sel r3, selectFrame cols f = .ok sel ∧
      applyTypeConversion cols (dropna (errTag sel)) = .ok r3 ∧
      out = dropna (applyLimits cols r3) := by
  cases hs : selectFrame cols f with
  | error e =>
    simp only [loadFile, hs] at h
    cases h
  | ok sel =>
    simp only [loadFile, hs, sanitize] at h
    cases hconv : applyTypeConversion cols (dropna (errTag sel)) with
    | error e => rw [hconv] at h; cases h
    | ok r3 =>
      rw [hconv] at h
      cases h
      exact ⟨sel, r3, rfl, hconv, rfl⟩

/-- C1: in every batch returned by `loadDirectory`, every range-declared
selected column of every surviving row holds a present numeric value `q`
with `min ≤ q ≤ max`; a row violating any declared range is removed whole
(nothing of it survives with a blanked cell, by C3's no-missing guarantee). -/
theorem spec_c1_rangeEnforcement :
    ∀ (files : List CsvFile) (cols : List String) (out : List Row),
      loadDirectory files cols = .ok out →
      ∀ (c : String) (lo hi : ℚ), c ∈ cols → valueLimits.lookup c = some (lo, hi) →
      ∀ r ∈ out, ∃ q, r.lookup c = some (Val.num q) ∧ lo ≤ q ∧ q ≤ hi := by
  intro files cols out h c lo hi hc hl r hr
  obtain ⟨f, _, o, ho, hro⟩ := loadDirAux_mem h hr
  obtain ⟨sel, r3, hs, hconv, hparts⟩ := loadFile_parts ho
  subst hparts
  have hkeys : rowKeys r = cols := loadFile_keys ho r hro
  obtain ⟨hmem, hclean⟩ := dropna_mem hro
  have hok := applyLimits_okAt cols r3 c lo hi hc hl r hmem
  have hck : c ∈ rowKeys r := by rw [hkeys]; exact hc
  obtain ⟨v, hv⟩ := lookup_of_mem_keys hck
  have hvnn : v ≠ Val.nan := hclean (c, v) (lookup_mem hv)
  obtain ⟨rm, hrm, hcase⟩ := applyLimits_mem hmem
  have hfl := limitsFloat c (lo, hi) hl
  have hshape : (∃ q, v = Val.num q) ∨ v = Val.nan := by
    rcases hcase with h1 | h1
    · refine applyTypeConversion_float_shape c cols (dropna (errTag sel)) r3 hc hfl hconv
        rm hrm v ?_
      rw [← h1]
      exact hv
    · exfalso
      apply hvnn
      have hin : (c, v) ∈ nanRow rm := by
        rw [← h1]
        exact lookup_mem hv
      obtain ⟨kv, _, hkv⟩ := List.mem_map.mp hin
      exact ((Prod.mk.injEq _ _ _ _).mp hkv).2.symm
  rcases hshape with ⟨q, rfl⟩ | h2
  · have hcd : cellD r c = Val.num q := by rw [cellD, hv]; rfl
    have hbelow := hok.1
    have habove := hok.2
    rw [hcd] at hbelow habove
    refine ⟨q, hv, ?_, ?_⟩
    · have : ¬ q < lo := by simpa [valBelow] using hbelow
      exact le_of_not_lt this
    · have : ¬ hi < q := by simpa [valAbove] using habove
      exact le_of_not_lt this
  · exact absurd h2 hvnn

/-- Witness for C1: from a file holding the in-range scenario row
(`AEZ-P_SUM = 10`) and the out-of-range one (`AEZ-P_SUM = 80 > 75`), the
cleaned batch is exactly the in-range row — the violating row is gone
whole — and the surviving value satisfies `5 ≤ 10 ≤ 75`. -/
theorem spec_c1_rangeEnforcement_witness :
    loadDirectory [wFile1] wCols = .ok [wRow10] ∧
      ∃ q, wRow10.lookup "AEZ-P_SUM" = some (Val.num q) ∧ 5 ≤ q ∧ q ≤ 75 :=
  ⟨by with_unfolding_all rfl,
    spec_c1_rangeEnforcement [wFile1] wCols [wRow10] (by with_unfolding_all rfl)
      "AEZ-P_SUM" 5 75 (by decide) rfl wRow10 (List.mem_cons_self _ _)⟩

/-- Witness for C3: the cleaned scenario row holds a present value in a
selected column. -/
theorem spec_c3_noMissingValues_witness :
    ∃ v, wRow10.lookup "AEZ-P_SUM" = some v ∧ v ≠ Val.nan :=
  spec_c3_noMissingValues [wFile1] wCols [wRow10] (by with_unfolding_all rfl)
    wRow10 (List.mem_cons_self _ _) "AEZ-P_SUM" (by decide)

theorem groupKey_aggRow (A : List String) (rows : List Row) (k : Val × Val) :
    groupKey (aggRow A rows k) = k := rfl

theorem filter_eq_single_of_nodup {α : Type} [DecidableEq α] :
    ∀ {l : List α} {k : α}, l.Nodup → k ∈ l → l.filter (fun x => decide (x = k)) = [k] := by
  intro l
  induction l with
  | nil =>
    intro k _ hk
    simp at hk
  | cons a l ih =>
    intro k hnd hk
    obtain ⟨hnotmem, hnd'⟩ := List.nodup_cons.mp hnd
    rcases List.mem_cons.mp hk with rfl | hk'
    · rw [List.filter_cons_of_pos (by simp)]
      rw [List.filter_eq_nil_iff.mpr (fun x hx => by simp; exact fun hEq => hnotmem (hEq ▸ hx))]
    · have hne : a ≠ k := fun hEq => hnotmem (hEq ▸ hk')
      rw [List.filter_cons_of_neg (by simp [hne])]
      exact ih hnd' hk'

theorem groupAverage_filter_key (A : List String) (rows : List Row) (k : Val × Val)
    (hk : k ∈ (rows.map groupKey).dedup) :
    (groupAverage A rows).filter (fun r => decide (groupKey r = k)) = [aggRow A rows k] := by
  unfold groupAverage keysOfRows
  rw [List.filter_map]
  have hcongr : ∀ x ∈ (rows.map groupKey).dedup,
      ((fun r => decide (groupKey r = k)) ∘ aggRow A rows) x = (fun x => decide (x = k)) x := by
    intro x _
    simp only [Function.comp_apply, groupKey_aggRow]
  rw [List.filter_congr hcongr,
    filter_eq_single_of_nodup (List.nodup_dedup _) hk, List.map_singleton]

theorem lookup_map_self {β : Type} {g : String → β} :
    ∀ {cs : List String} {c : String}, c ∈ cs →
      List.lookup c (cs.map (fun c' => (c', g c'))) = some (g c) := by
  intro cs
  induction cs with
  | nil =>
    intro c hc
    simp at hc
  | cons c0 cs ih =>
    intro c hc
    by_cases hb : (c == c0) = true
    · have : c = c0 := eq_of_beq hb
      subst this
      simp [List.lookup]
    · have hne : (c == c0) = false := by simpa using hb
      rcases List.mem_cons.mp hc with rfl | hc'
      · rw [beq_self_eq_true c] at hne
        cases hne
      · simp only [List.map, List.lookup, hne]
        exact ih hc'

theorem aggRow_lookup {A : List String} {rows : List Row} {k : Val × Val} {c : String}
    (h1 : c ≠ "Hour") (h2 : c ≠ "YYYYMMDD") (h3 : c ∈ A) (h4 : isNumCol rows c = true) :
    (aggRow A rows k).lookup c =
      some (Val.num (meanAt (rows.filter (fun r => decide (groupKey r = k))) c)) := by
  have hb1 : (c == "Hour") = false := beq_eq_false_iff_ne.mpr h1
  have hb2 : (c == "YYYYMMDD") = false := beq_eq_false_iff_ne.mpr h2
  have hmemf : c ∈ A.filter (fun c => !(c == "Hour") && !(c == "YYYYMMDD") && isNumCol rows c) :=
    List.mem_filter.mpr ⟨h3, by simp [hb1, hb2, h4]⟩
  simp only [aggRow, List.lookup, hb1, hb2]
  exact lookup_map_self hmemf

/-- C4: for a single record source, hourly aggregation groups the cleaned,
time-keyed rows by their `(Hour, YYYYMMDD)` key: the loader returns the
grouped batch, the number of output rows equals the number of distinct keys,
each distinct key produces exactly one output row, and in that row every
numeric non-key column holds the arithmetic mean of that column over the
rows sharing the key. -/
theorem spec_c4_hourlyAggregation :
    ∀ (cols : List String) (f : CsvFile) (cleaned wt : List Row),
      loadFile cols f = .ok cleaned → addTimeColumns cleaned = .ok wt →
      loadFileAveraged cols f = .ok (groupAverage (cols ++ timeColNames) wt) ∧
      (groupAverage (cols ++ timeColNames) wt).length = ((wt.map groupKey).dedup).length ∧
      ∀ k ∈ (wt.map groupKey).dedup,
        (groupAverage (cols ++ timeColNames) wt).filter (fun r => decide (groupKey r = k)) =
          [aggRow (cols ++ timeColNames) wt k] ∧
        ∀ c ∈ cols ++ timeColNames, c ≠ "Hour" → c ≠ "YYYYMMDD" → isNumCol wt c = true →
          (aggRow (cols ++ timeColNames) wt k).lookup c =
            some (Val.num (meanAt (wt.filter (fun r => decide (groupKey r = k))) c)) := by
  intro cols f cleaned wt h1 h2
  refine ⟨?_, ?_, ?_⟩
  · simp only [loadFileAveraged, h1, h2]
  · simp [groupAverage, keysOfRows]
  · intro k hk
    exact ⟨groupAverage_filter_key (cols ++ timeColNames) wt k hk,
      fun c hcA hc1 hc2 hnum => aggRow_lookup hc1 hc2 hcA hnum⟩

/-- Witness for C4: two rows sharing `(Hour = 9, YYYYMMDD = "20230615")`
with `AEZ-P_SUM` values 10 and 20 aggregate to a single row with
`AEZ-P_SUM = 15`. -/
theorem spec_c4_hourlyAggregation_witness :
    loadFileAveraged wCols wFile4 = .ok (groupAverage (wCols ++ timeColNames) wWt4) ∧
      groupAverage (wCols ++ timeColNames) wWt4 =
        [[("Hour", Val.num 9), ("YYYYMMDD", Val.str "20230615"),
          ("AEZ-P_SUM", Val.num 15), ("Month", Val.num 6), ("Day", Val.num 15)]] :=
  ⟨(spec_c4_hourlyAggregation wCols wFile4 [wRow10, wRow20] wWt4 (by with_unfolding_all rfl)
      (by with_unfolding_all rfl)).1,
    by with_unfolding_all rfl⟩

/-- C10: hourly averaging is computed per source file, never across files —
when the same `(Hour, YYYYMMDD)` key occurs in the cleaned rows of two
different `.csv` files, the directory loader's output contains two separate
rows for that key, each the aggregate of its own file's rows only. -/
theorem spec_c10_perFileAveraging :
    ∀ (cols : List String) (f g : CsvFile) (cf cg wtf wtg : List Row) (k : Val × Val),
      strEndsWith f.name ".csv" = true → strEndsWith g.name ".csv" = true →
      loadFile cols f = .ok cf → addTimeColumns cf = .ok wtf →
      loadFile cols g = .ok cg → addTimeColumns cg = .ok wtg →
      k ∈ wtf.map groupKey → k ∈ wtg.map groupKey →
      ∃ out, loadDirectoryHourlyAveraged [f, g] cols = .ok out ∧
        out.filter (fun r => decide (groupKey r = k)) =
          [aggRow (cols ++ timeColNames) wtf k, aggRow (cols ++ timeColNames) wtg k] := by
  intro cols f g cf cg wtf wtg k hcf hcg h1 h2 h3 h4 hk1 hk2
  have hf : loadFileAveraged cols f = .ok (groupAverage (cols ++ timeColNames) wtf) := by
    simp only [loadFileAveraged, h1, h2]
  have hg : loadFileAveraged cols g = .ok (groupAverage (cols ++ timeColNames) wtg) := by
    simp only [loadFileAveraged, h3, h4]
  refine ⟨groupAverage (cols ++ timeColNames) wtf ++
      (groupAverage (cols ++ timeColNames) wtg ++ []), ?_, ?_⟩
  · simp only [loadDirectoryHourlyAveraged, loadDirAux, hcf, hcg, hf, hg, if_true]
  · rw [List.filter_append, List.filter_append,
      groupAverage_filter_key (cols ++ timeColNames) wtf k (List.mem_dedup.mpr hk1),
      groupAverage_filter_key (cols ++ timeColNames) wtg k (List.mem_dedup.mpr hk2)]
    rfl

/-- Witness for C10: the key `(9, "20230615")` appears in both sample
files (values 10 and 20); the output carries two separate rows, one per
file — the values are not merged into a single mean. -/
theorem spec_c10_perFileAveraging_witness :
    ∃ out, loadDirectoryHourlyAveraged [wFileF, wFileG] wCols = .ok out ∧
      out.filter (fun r => decide (groupKey r = wKey)) =
        [aggRow (wCols ++ timeColNames) wWtF wKey, aggRow (wCols ++ timeColNames) wWtG wKey] :=
  spec_c10_perFileAveraging wCols wFileF wFileG [wRow10] [wRow20] wWtF wWtG wKey
    (by decide) (by decide) (by with_unfolding_all rfl) (by with_unfolding_all rfl)
    (by with_unfolding_all rfl) (by with_unfolding_all rfl)
    (by with_unfolding_all decide) (by with_unfolding_all decide)
